import Mathlib

/-!
Shallow embedding of `validate_changes.py`, a heuristic syntax checker for a
fixed list of Swift files, together with proofs about the claims of its
specification.

File texts are modelled as `List Char` (Python reads the whole file as a
string and splits on `'\n'`); the scanner `check_swift_file` and the driver
`main_run` below mirror the Python source line by line.
-/

namespace ValidateChanges

/-- Python `str.isspace`-style whitespace as used by `\s` in `re` patterns and
by `str.strip()`: ASCII whitespace plus the Unicode whitespace code points. -/
def isPySpace (c : Char) : Bool :=
  c = ' ' || c = '\t' || c = '\n' || c = '\x0b' || c = '\x0c' || c = '\r' ||
  c = '\x1c' || c = '\x1d' || c = '\x1e' || c = '\x1f' || c = '\x85' || c = '\xa0' ||
  c = '\u1680' || ('\u2000' ≤ c && c ≤ '\u200a') || c = '\u2028' || c = '\u2029' ||
  c = '\u202f' || c = '\u205f' || c = '\u3000'

/-- Python `\w` word character.  The script is only ever run on ASCII Swift
sources, so the ASCII part `[A-Za-z0-9_]` of Python's `\w` is modelled. -/
def isPyWord (c : Char) : Bool :=
  c.isAlphanum || c = '_'

/-- `pre` is a leading segment of `s` (used to implement Python's substring
test `pat in s`). -/
def prefixOf : List Char → List Char → Bool
  | [], _ => true
  | _ :: _, [] => false
  | c :: cs, d :: ds => c == d && prefixOf cs ds

/-- Python's substring containment `pat in s`. -/
def containsSub (pat : List Char) (s : List Char) : Bool :=
  match s with
  | [] => prefixOf pat []
  | _ :: rest => prefixOf pat s || containsSub pat rest

/-- Python `str.strip()`: remove leading and trailing whitespace. -/
def stripPy (l : List Char) : List Char :=
  ((l.dropWhile isPySpace).reverse.dropWhile isPySpace).reverse

/-- Python `content.split('\n')` on a character list: always returns at least
one (possibly empty) line, and one extra line per `'\n'`. -/
def splitNl : List Char → List (List Char)
  | [] => [[]]
  | c :: rest =>
    if c = '\n' then
      [] :: splitNl rest
    else
      match splitNl rest with
      | [] => [[c]]
      | l :: ls => (c :: l) :: ls

/-- `re.match(r'\s*func\s+\w+.*\{\s*$', line)` from the source, as a boolean
on lines (which never contain `'\n'`).  Because whitespace and word
characters are disjoint and `.*` absorbs everything up to the final brace,
the backtracking regex is equivalent to the following maximal-munch check:
after optional whitespace the line starts with `func`, followed by at least
one whitespace character, then (after the whitespace run) at least one word
character, and the last non-whitespace character of the remainder is `'{'`. -/
def funcSigMatch (l : List Char) : Bool :=
  let l1 := l.dropWhile isPySpace
  prefixOf "func".toList l1 &&
    (match l1.drop 4 with
     | [] => false
     | c :: cs =>
       isPySpace c &&
         (match (c :: cs).dropWhile isPySpace with
          | [] => false
          | d :: rest =>
            isPyWord d &&
              (match rest.reverse.dropWhile isPySpace with
               | [] => false
               | e :: _ => e == '{')))

/-- The literal marker substring of heuristic A. -/
def asyncMarker : List Char := "DispatchQueue.main.async".toList

/-- `f"Line {i}: DispatchQueue.main.async might be missing opening brace"`. -/
def asyncMsg (i : Nat) : List Char :=
  "Line ".toList ++ (toString i).toList ++
    ": DispatchQueue.main.async might be missing opening brace".toList

/-- `f"Line {i}: Function appears to have empty body"`. -/
def funcMsg (i : Nat) : List Char :=
  "Line ".toList ++ (toString i).toList ++ ": Function appears to have empty body".toList

/-- `f"Mismatched braces: {brace_count} extra opening braces"`. -/
def braceMsg (n : Int) : List Char :=
  "Mismatched braces: ".toList ++ (toString n).toList ++ " extra opening braces".toList

/-- `f"Mismatched parentheses: {paren_count} extra opening parentheses"`. -/
def parenMsg (n : Int) : List Char :=
  "Mismatched parentheses: ".toList ++ (toString n).toList ++
    " extra opening parentheses".toList

/-- `f"Mismatched brackets: {bracket_count} extra opening brackets"`. -/
def bracketMsg (n : Int) : List Char :=
  "Mismatched brackets: ".toList ++ (toString n).toList ++ " extra opening brackets".toList

/-- The scanner's local state: the three balance counters and the issue list
accumulated so far (all local variables of `check_swift_file`). -/
structure ScanState where
  brace : Int
  paren : Int
  bracket : Int
  issues : List (List Char)
deriving DecidableEq

/-- One iteration of the `for i, line in enumerate(lines, 1)` loop.  `i` is
the 1-based number of `line`; `rest` are the lines after it, so Python's
`i < len(lines)` is `rest ≠ []` and `lines[i]` is `rest.headD []`. -/
def lineStep (i : Nat) (line : List Char) (rest : List (List Char)) (st : ScanState) :
    ScanState :=
  let st1 : ScanState :=
    { st with
      brace := st.brace + ((line.count '{' : Int) - (line.count '}' : Int)),
      paren := st.paren + ((line.count '(' : Int) - (line.count ')' : Int)),
      bracket := st.bracket + ((line.count '[' : Int) - (line.count ']' : Int)) }
  let st2 : ScanState :=
    if containsSub asyncMarker line && !containsSub ['{'] line && !rest.isEmpty then
      let nextLine := rest.headD []
      if !containsSub ['{'] nextLine then
        { st1 with issues := st1.issues ++ [asyncMsg i] }
      else st1
    else st1
  if funcSigMatch line then
    if !rest.isEmpty && (stripPy (rest.headD []) == ['}']) then
      { st2 with issues := st2.issues ++ [funcMsg i] }
    else st2
  else st2

/-- The whole loop of `check_swift_file` over the remaining lines, starting
at 1-based line number `i`. -/
def scanLoop : Nat → List (List Char) → ScanState → ScanState
  | _, [], st => st
  | i, line :: rest, st => scanLoop (i + 1) rest (lineStep i line rest st)

/-- `check_swift_file`, applied to the decoded text of the file (the
`open`/`read` part lives in the driver model below): split into lines, run
the loop from fresh counters and an empty issue list, then append one
message per non-zero final counter. -/
def check_swift_file (content : List Char) : List (List Char) :=
  let lines := splitNl content
  let st := scanLoop 1 lines ⟨0, 0, 0, []⟩
  let issues1 := if st.brace ≠ 0 then st.issues ++ [braceMsg st.brace] else st.issues
  let issues2 := if st.paren ≠ 0 then issues1 ++ [parenMsg st.paren] else issues1
  if st.bracket ≠ 0 then issues2 ++ [bracketMsg st.bracket] else issues2

/-- State of one path on the filesystem when the tool runs: absent, present
with UTF-8 text `content`, or present but not decodable as UTF-8. -/
inductive FileState where
  | absent
  | text (content : List Char)
  | undecodable
deriving DecidableEq

/-- The Python exceptions the driver can encounter. -/
inductive PyError where
  | fileNotFound
  | unicodeDecodeError
deriving DecidableEq

/-- Result of running a piece of Python code: a value, or an uncaught
exception that aborts the process (`main` installs no handler). -/
inductive PyOutcome (α : Type) where
  | ok (val : α)
  | raised (err : PyError)
deriving DecidableEq

/-- `os.path.exists(filepath)`. -/
def pathExists : FileState → Bool
  | .absent => false
  | _ => true

/-- `open(filepath, 'r', encoding='utf-8')` followed by `f.read()`:
`FileNotFoundError` for a missing file, `UnicodeDecodeError` for a file that
is not valid UTF-8. -/
def readFile : FileState → PyOutcome (List Char)
  | .absent => .raised .fileNotFound
  | .text c => .ok c
  | .undecodable => .raised .unicodeDecodeError

/-- The hard-coded `modified_files` list of `main`. -/
def modified_files : List String :=
  ["i18n editor/Views/TranslationEditorView.swift",
   "i18n editor/PermissionManager.swift",
   "i18n editor/FileSystemManager.swift",
   "i18n editor/i18n_editorApp.swift",
   "i18n editor/ContentView.swift",
   "i18n editor/ProjectManager.swift"]

/-- The `for filepath in modified_files` loop of `main` over a filesystem
`fs`, threading the running `total_issues`.  Per file it records what is
printed: `none` for the "File not found" branch, `some issues` for a scanned
file.  An exception (only `read` can raise here, since `check_swift_file` is
called after an existence check) aborts the whole loop. -/
def processFiles (fs : String → FileState) :
    List String → Nat → PyOutcome (List (Option (List (List Char))) × Nat)
  | [], total => .ok ([], total)
  | p :: rest, total =>
    if pathExists (fs p) then
      match readFile (fs p) with
      | .raised e => .raised e
      | .ok content =>
        let issues := check_swift_file content
        match processFiles fs rest (total + issues.length) with
        | .raised e => .raised e
        | .ok (reps, t) => .ok (some issues :: reps, t)
    else
      match processFiles fs rest total with
      | .raised e => .raised e
      | .ok (reps, t) => .ok (none :: reps, t)

/-- The observable outcome of a completed run of `main`: the per-file
reports, the two numbers of the summary block, and the returned exit code. -/
structure RunResult where
  reports : List (Option (List (List Char)))
  filesChecked : Nat
  totalIssues : Nat
  exitCode : Nat
deriving DecidableEq

/-- `main` over filesystem `fs`: run the loop, then the summary counts
`len([f for f in modified_files if os.path.exists(f)])` and `total_issues`,
and `return 0` when `total_issues == 0`, else `return 1` (handed to
`sys.exit`).  An uncaught exception yields `raised` instead. -/
def main_run (fs : String → FileState) : PyOutcome RunResult :=
  match processFiles fs modified_files 0 with
  | .raised e => .raised e
  | .ok (reps, total) =>
    .ok ⟨reps, (modified_files.filter (fun p => pathExists (fs p))).length, total,
         if total = 0 then 0 else 1⟩

/-- What the driver prints for one path: `none` when the file is absent,
otherwise the scanner's issues for its text (an undecodable file has no
report; it aborts the run). -/
def fileReport (fs : String → FileState) (p : String) : Option (List (List Char)) :=
  match fs p with
  | .text c => some (check_swift_file c)
  | _ => none

/-- How much one path contributes to `total_issues`. -/
def numIssues (fs : String → FileState) (p : String) : Nat :=
  match fs p with
  | .text c => (check_swift_file c).length
  | _ => 0

/-! ### Specification vocabulary

Closed forms of the scanner's counters and issue stream, used to state and
prove the claims; `scanLoop_eq` below ties them to the source functions. -/

/-- Net brace balance contributed by a list of lines. -/
def braceDelta (lines : List (List Char)) : Int :=
  (lines.map (fun l => (l.count '{' : Int) - (l.count '}' : Int))).sum

/-- Net parenthesis balance contributed by a list of lines. -/
def parenDelta (lines : List (List Char)) : Int :=
  (lines.map (fun l => (l.count '(' : Int) - (l.count ')' : Int))).sum

/-- Net square-bracket balance contributed by a list of lines. -/
def bracketDelta (lines : List (List Char)) : Int :=
  (lines.map (fun l => (l.count '[' : Int) - (l.count ']' : Int))).sum

/-- The stream of line-heuristic issues the loop emits for the given lines,
the first line carrying 1-based number `i`: per line, the heuristic-A
message, then the heuristic-B message, each under exactly the condition of
`lineStep`. -/
def emitted (i : Nat) : List (List Char) → List (List Char)
  | [] => []
  | line :: rest =>
    (if containsSub asyncMarker line && !containsSub ['{'] line && !rest.isEmpty
        && !containsSub ['{'] (rest.headD []) then [asyncMsg i] else []) ++
    (if funcSigMatch line && (!rest.isEmpty && (stripPy (rest.headD []) == ['}']))
        then [funcMsg i] else []) ++
    emitted (i + 1) rest

/-- The three balance messages appended after the loop, in source order. -/
def balanceMsgs (b q r : Int) : List (List Char) :=
  (if b ≠ 0 then [braceMsg b] else []) ++
  (if q ≠ 0 then [parenMsg q] else []) ++
  (if r ≠ 0 then [bracketMsg r] else [])

/-- `LineOrdered i l`: `l` consists only of heuristic messages whose cited
line numbers are at least `i` and nondecreasing along the list, with the
heuristic-A message of a line never after that line's heuristic-B message. -/
inductive LineOrdered : Nat → List (List Char) → Prop where
  | nil (i : Nat) : LineOrdered i []
  | async (i j : Nat) (rest : List (List Char)) :
      i ≤ j → LineOrdered j rest → LineOrdered i (asyncMsg j :: rest)
  | func (i j : Nat) (rest : List (List Char)) :
      i ≤ j → LineOrdered (j + 1) rest → LineOrdered i (funcMsg j :: rest)

/-! ### Structural lemmas -/

theorem splitNl_ne_nil (cs : List Char) : splitNl cs ≠ [] := by
  cases cs with
  | nil => simp [splitNl]
  | cons c rest =>
    simp only [splitNl]
    split
    · simp
    · split <;> simp

theorem count_splitNl (c : Char) (hc : c ≠ '\n') (cs : List Char) :
    ((splitNl cs).map (fun l => l.count c)).sum = cs.count c := by
  induction cs with
  | nil => simp [splitNl]
  | cons d rest ih =>
    by_cases hd : d = '\n'
    · subst hd
      simp [splitNl, ih, List.count_cons, hc]
    · cases h : splitNl rest with
      | nil => exact absurd h (splitNl_ne_nil rest)
      | cons l ls =>
        rw [h] at ih
        simp only [splitNl, if_neg hd, h, List.map_cons, List.sum_cons,
          List.count_cons] at ih ⊢
        by_cases hdc : d = c <;> simp [hdc] at ih ⊢ <;> omega

theorem lineStep_eq (i : Nat) (line : List Char) (rest : List (List Char)) (st : ScanState) :
    lineStep i line rest st =
      { brace := st.brace + ((line.count '{' : Int) - (line.count '}' : Int)),
        paren := st.paren + ((line.count '(' : Int) - (line.count ')' : Int)),
        bracket := st.bracket + ((line.count '[' : Int) - (line.count ']' : Int)),
        issues := st.issues ++
          ((if containsSub asyncMarker line && !containsSub ['{'] line && !rest.isEmpty
               && !containsSub ['{'] (rest.headD []) then [asyncMsg i] else []) ++
           (if funcSigMatch line && (!rest.isEmpty && (stripPy (rest.headD []) == ['}']))
               then [funcMsg i] else [])) } := by
  by_cases ha : containsSub asyncMarker line = true <;>
    by_cases hb : containsSub ['{'] line = true <;>
      by_cases hc : rest.isEmpty = true <;>
        by_cases he : funcSigMatch line = true <;>
          simp [lineStep, ha, hb, hc, he] <;>
            (repeat' split) <;> simp

theorem scanLoop_eq (lines : List (List Char)) : ∀ (i : Nat) (st : ScanState),
    scanLoop i lines st =
      ⟨st.brace + braceDelta lines, st.paren + parenDelta lines,
       st.bracket + bracketDelta lines, st.issues ++ emitted i lines⟩ := by
  induction lines with
  | nil =>
    intro i st
    simp [scanLoop, braceDelta, parenDelta, bracketDelta, emitted]
  | cons line rest ih =>
    intro i st
    show scanLoop (i + 1) rest (lineStep i line rest st) = _
    rw [ih, lineStep_eq]
    simp only [braceDelta, parenDelta, bracketDelta, emitted, List.map_cons,
      List.sum_cons, ScanState.mk.injEq, List.append_assoc]
    refine ⟨by omega, by omega, by omega, trivial⟩

theorem check_swift_file_eq (content : List Char) :
    check_swift_file content =
      emitted 1 (splitNl content) ++
        balanceMsgs (braceDelta (splitNl content)) (parenDelta (splitNl content))
          (bracketDelta (splitNl content)) := by
  by_cases hb : braceDelta (splitNl content) ≠ 0 <;>
    by_cases hp : parenDelta (splitNl content) ≠ 0 <;>
      by_cases hk : bracketDelta (splitNl content) ≠ 0 <;>
        simp [check_swift_file, scanLoop_eq, balanceMsgs, hb, hp, hk, List.append_assoc]

theorem containsSub_single (c : Char) (l : List Char) :
    containsSub [c] l = true ↔ c ∈ l := by
  induction l with
  | nil => simp [containsSub, prefixOf]
  | cons d rest ih => simp [containsSub, prefixOf, ih]

theorem emitted_mem (s : List Char) (lines : List (List Char)) :
    ∀ i : Nat, s ∈ emitted i lines →
      ∃ j, i ≤ j ∧ j + 1 < i + lines.length ∧ (s = asyncMsg j ∨ s = funcMsg j) := by
  induction lines with
  | nil => intro i h; simp [emitted] at h
  | cons line rest ih =>
    intro i h
    simp only [emitted, List.mem_append] at h
    rcases h with (h | h) | h
    · split at h
      case isTrue hc =>
        simp only [List.mem_singleton] at h
        subst h
        simp only [Bool.and_eq_true, Bool.not_eq_true'] at hc
        have hrest : rest ≠ [] := by
          intro he
          subst he
          simp at hc
        have hlen : 1 ≤ rest.length := List.length_pos.mpr hrest
        exact ⟨i, le_refl i, by simp [List.length_cons]; omega, Or.inl rfl⟩
      case isFalse => simp at h
    · split at h
      case isTrue hc =>
        simp only [List.mem_singleton] at h
        subst h
        simp only [Bool.and_eq_true, Bool.not_eq_true'] at hc
        have hrest : rest ≠ [] := by
          intro he
          subst he
          simp at hc
        have hlen : 1 ≤ rest.length := List.length_pos.mpr hrest
        exact ⟨i, le_refl i, by simp [List.length_cons]; omega, Or.inr rfl⟩
      case isFalse => simp at h
    · obtain ⟨j, hij, hlt, hs⟩ := ih (i + 1) h
      exact ⟨j, by omega, by simp [List.length_cons]; omega, hs⟩

theorem emitted_async (lines : List (List Char)) :
    ∀ (k i : Nat) (line nl : List Char),
      lines[k]? = some line → lines[k + 1]? = some nl →
      containsSub asyncMarker line = true → containsSub ['{'] line = false →
      containsSub ['{'] nl = false →
      asyncMsg (i + k) ∈ emitted i lines := by
  induction lines with
  | nil => intro k i line nl h1; simp at h1
  | cons l rest ih =>
    intro k i line nl h1 h2 hm hl hn
    cases k with
    | zero =>
      cases rest with
      | nil => simp at h2
      | cons r rs =>
        simp only [List.getElem?_cons_zero, List.getElem?_cons_succ,
          Option.some.injEq] at h1 h2
        subst h1
        subst h2
        simp [emitted, hm, hl, hn]
    | succ k' =>
      simp only [List.getElem?_cons_succ] at h1 h2
      have h3 := ih k' (i + 1) line nl h1 h2 hm hl hn
      have harith : i + 1 + k' = i + (k' + 1) := by omega
      rw [harith] at h3
      simp only [emitted, List.mem_append]
      exact Or.inr h3

theorem emitted_func (lines : List (List Char)) :
    ∀ (k i : Nat) (line nl : List Char),
      lines[k]? = some line → lines[k + 1]? = some nl →
      funcSigMatch line = true → stripPy nl = ['}'] →
      funcMsg (i + k) ∈ emitted i lines := by
  induction lines with
  | nil => intro k i line nl h1; simp at h1
  | cons l rest ih =>
    intro k i line nl h1 h2 hf hs
    cases k with
    | zero =>
      cases rest with
      | nil => simp at h2
      | cons r rs =>
        simp only [List.getElem?_cons_zero, List.getElem?_cons_succ,
          Option.some.injEq] at h1 h2
        subst h1
        subst h2
        simp [emitted, hf, hs]
    | succ k' =>
      simp only [List.getElem?_cons_succ] at h1 h2
      have h3 := ih k' (i + 1) line nl h1 h2 hf hs
      have harith : i + 1 + k' = i + (k' + 1) := by omega
      rw [harith] at h3
      simp only [emitted, List.mem_append]
      exact Or.inr h3

theorem LineOrdered.weaken {i' : Nat} {l : List (List Char)} (h : LineOrdered i' l) :
    ∀ i : Nat, i ≤ i' → LineOrdered i l := by
  induction h with
  | nil i' => intro i _; exact .nil i
  | async i' j rest hij hrest _ => intro i hi; exact .async i j rest (le_trans hi hij) hrest
  | func i' j rest hij hrest _ => intro i hi; exact .func i j rest (le_trans hi hij) hrest

theorem emitted_ordered (lines : List (List Char)) :
    ∀ i : Nat, LineOrdered i (emitted i lines) := by
  induction lines with
  | nil => intro i; exact .nil i
  | cons line rest ih =>
    intro i
    simp only [emitted]
    split
    · split
      · exact .async i i _ (le_refl i) (.func i i _ (le_refl i) (ih (i + 1)))
      · simp only [List.append_nil, List.nil_append]
        exact .async i i _ (le_refl i) ((ih (i + 1)).weaken i (by omega))
    · split
      · simp only [List.nil_append]
        exact .func i i _ (le_refl i) (ih (i + 1))
      · simp only [List.nil_append]
        exact (ih (i + 1)).weaken i (by omega)

theorem ne_of_getElemQ {l1 l2 : List Char} {n : Nat} {a b : Char}
    (h1 : l1[n]? = some a) (h2 : l2[n]? = some b) (hab : a ≠ b) : l1 ≠ l2 := by
  intro h
  subst h
  rw [h1] at h2
  injection h2 with h3
  exact hab h3

theorem asyncMsg_getZero (j : Nat) : (asyncMsg j)[0]? = some 'L' := rfl

theorem funcMsg_getZero (j : Nat) : (funcMsg j)[0]? = some 'L' := rfl

theorem braceMsg_getZero (n : Int) : (braceMsg n)[0]? = some 'M' := rfl

theorem parenMsg_getZero (n : Int) : (parenMsg n)[0]? = some 'M' := rfl

theorem bracketMsg_getZero (n : Int) : (bracketMsg n)[0]? = some 'M' := rfl

theorem braceMsg_getEleven (n : Int) : (braceMsg n)[11]? = some 'b' := rfl

theorem parenMsg_getEleven (n : Int) : (parenMsg n)[11]? = some 'p' := rfl

theorem bracketMsg_getEleven (n : Int) : (bracketMsg n)[11]? = some 'b' := rfl

theorem braceMsg_getFifteen (n : Int) : (braceMsg n)[15]? = some 'e' := rfl

theorem bracketMsg_getFifteen (n : Int) : (bracketMsg n)[15]? = some 'k' := rfl

theorem braceMsg_not_in_emitted (b : Int) (i : Nat) (lines : List (List Char)) :
    braceMsg b ∉ emitted i lines := by
  intro hmem
  obtain ⟨j, _, _, hj | hj⟩ := emitted_mem _ lines i hmem
  · exact ne_of_getElemQ (asyncMsg_getZero j) (braceMsg_getZero b) (by decide) hj.symm
  · exact ne_of_getElemQ (funcMsg_getZero j) (braceMsg_getZero b) (by decide) hj.symm

theorem parenMsg_not_in_emitted (b : Int) (i : Nat) (lines : List (List Char)) :
    parenMsg b ∉ emitted i lines := by
  intro hmem
  obtain ⟨j, _, _, hj | hj⟩ := emitted_mem _ lines i hmem
  · exact ne_of_getElemQ (asyncMsg_getZero j) (parenMsg_getZero b) (by decide) hj.symm
  · exact ne_of_getElemQ (funcMsg_getZero j) (parenMsg_getZero b) (by decide) hj.symm

theorem bracketMsg_not_in_emitted (b : Int) (i : Nat) (lines : List (List Char)) :
    bracketMsg b ∉ emitted i lines := by
  intro hmem
  obtain ⟨j, _, _, hj | hj⟩ := emitted_mem _ lines i hmem
  · exact ne_of_getElemQ (asyncMsg_getZero j) (bracketMsg_getZero b) (by decide) hj.symm
  · exact ne_of_getElemQ (funcMsg_getZero j) (bracketMsg_getZero b) (by decide) hj.symm

theorem sum_map_sub_count (lines : List (List Char)) (a b : Char) :
    (lines.map (fun l => (l.count a : Int) - (l.count b : Int))).sum =
      (((lines.map (fun l => l.count a)).sum : Nat) : Int) -
        (((lines.map (fun l => l.count b)).sum : Nat) : Int) := by
  induction lines with
  | nil => simp
  | cons l rest ih =>
    simp only [List.map_cons, List.sum_cons, ih]
    push_cast
    ring

theorem braceDelta_splitNl (cs : List Char) :
    braceDelta (splitNl cs) = (cs.count '{' : Int) - (cs.count '}' : Int) := by
  unfold braceDelta
  rw [sum_map_sub_count, count_splitNl '{' (by decide) cs, count_splitNl '}' (by decide) cs]

theorem parenDelta_splitNl (cs : List Char) :
    parenDelta (splitNl cs) = (cs.count '(' : Int) - (cs.count ')' : Int) := by
  unfold parenDelta
  rw [sum_map_sub_count, count_splitNl '(' (by decide) cs, count_splitNl ')' (by decide) cs]

theorem bracketDelta_splitNl (cs : List Char) :
    bracketDelta (splitNl cs) = (cs.count '[' : Int) - (cs.count ']' : Int) := by
  unfold bracketDelta
  rw [sum_map_sub_count, count_splitNl '[' (by decide) cs, count_splitNl ']' (by decide) cs]

theorem braceMsg_ne_parenMsg (b q : Int) : braceMsg b ≠ parenMsg q :=
  ne_of_getElemQ (braceMsg_getEleven b) (parenMsg_getEleven q) (by decide)

theorem braceMsg_ne_bracketMsg (b r : Int) : braceMsg b ≠ bracketMsg r :=
  ne_of_getElemQ (braceMsg_getFifteen b) (bracketMsg_getFifteen r) (by decide)

theorem parenMsg_ne_bracketMsg (q r : Int) : parenMsg q ≠ bracketMsg r :=
  ne_of_getElemQ (parenMsg_getEleven q) (bracketMsg_getEleven r) (by decide)

theorem count_balanceMsgs_brace (b q r : Int) (hb : b ≠ 0) :
    (balanceMsgs b q r).count (braceMsg b) = 1 := by
  unfold balanceMsgs
  rw [if_pos hb]
  simp only [List.count_append]
  have h1 : (if q ≠ 0 then [parenMsg q] else []).count (braceMsg b) = 0 := by
    split
    · rw [List.count_eq_zero]
      simp only [List.mem_singleton]
      exact braceMsg_ne_parenMsg b q
    · rfl
  have h2 : (if r ≠ 0 then [bracketMsg r] else []).count (braceMsg b) = 0 := by
    split
    · rw [List.count_eq_zero]
      simp only [List.mem_singleton]
      exact braceMsg_ne_bracketMsg b r
    · rfl
  rw [h1, h2]
  simp

theorem count_balanceMsgs_paren (b q r : Int) (hq : q ≠ 0) :
    (balanceMsgs b q r).count (parenMsg q) = 1 := by
  unfold balanceMsgs
  rw [if_pos hq]
  simp only [List.count_append]
  have h1 : (if b ≠ 0 then [braceMsg b] else []).count (parenMsg q) = 0 := by
    split
    · rw [List.count_eq_zero]
      simp only [List.mem_singleton]
      exact (braceMsg_ne_parenMsg b q).symm
    · rfl
  have h2 : (if r ≠ 0 then [bracketMsg r] else []).count (parenMsg q) = 0 := by
    split
    · rw [List.count_eq_zero]
      simp only [List.mem_singleton]
      exact parenMsg_ne_bracketMsg q r
    · rfl
  rw [h1, h2]
  simp

theorem count_balanceMsgs_bracket (b q r : Int) (hr : r ≠ 0) :
    (balanceMsgs b q r).count (bracketMsg r) = 1 := by
  unfold balanceMsgs
  rw [if_pos hr]
  simp only [List.count_append]
  have h1 : (if b ≠ 0 then [braceMsg b] else []).count (bracketMsg r) = 0 := by
    split
    · rw [List.count_eq_zero]
      simp only [List.mem_singleton]
      exact (braceMsg_ne_bracketMsg b r).symm
    · rfl
  have h2 : (if q ≠ 0 then [parenMsg q] else []).count (bracketMsg r) = 0 := by
    split
    · rw [List.count_eq_zero]
      simp only [List.mem_singleton]
      exact (parenMsg_ne_bracketMsg q r).symm
    · rfl
  rw [h1, h2]
  simp

/-! ### Driver lemmas -/

theorem processFiles_eq (fs : String → FileState) :
    ∀ (files : List String) (total : Nat),
      (∀ p ∈ files, fs p ≠ FileState.undecodable) →
      processFiles fs files total =
        .ok (files.map (fileReport fs), total + (files.map (numIssues fs)).sum) := by
  intro files
  induction files with
  | nil => intro total _; simp [processFiles]
  | cons p rest ih =>
    intro total h
    have hp : fs p ≠ FileState.undecodable := h p (List.mem_cons_self p rest)
    have hrest : ∀ q ∈ rest, fs q ≠ FileState.undecodable :=
      fun q hq => h q (List.mem_cons_of_mem p hq)
    cases hfs : fs p with
    | absent =>
      simp [processFiles, pathExists, hfs, ih total hrest, fileReport, numIssues]
    | text c =>
      simp [processFiles, pathExists, readFile, hfs,
        ih (total + (check_swift_file c).length) hrest, fileReport, numIssues]
      omega
    | undecodable => exact absurd hfs hp

theorem processFiles_ok_no_undec (fs : String → FileState) :
    ∀ (files : List String) (total : Nat) (pr : List (Option (List (List Char))) × Nat),
      processFiles fs files total = .ok pr →
      ∀ p ∈ files, fs p ≠ FileState.undecodable := by
  intro files
  induction files with
  | nil => intro total pr _ p hp; simp at hp
  | cons q rest ih =>
    intro total pr h p hp
    rcases List.mem_cons.mp hp with rfl | hp'
    · intro hu
      simp [processFiles, pathExists, readFile, hu] at h
    · cases hfs : fs q with
      | absent =>
        rw [show processFiles fs (q :: rest) total =
              (match processFiles fs rest total with
               | .raised e => .raised e
               | .ok (reps, t) => .ok (none :: reps, t)) by
            simp [processFiles, pathExists, hfs]] at h
        cases hr : processFiles fs rest total with
        | raised e => rw [hr] at h; simp at h
        | ok pr' => exact ih total pr' hr p hp'
      | text c =>
        rw [show processFiles fs (q :: rest) total =
              (match processFiles fs rest (total + (check_swift_file c).length) with
               | .raised e => .raised e
               | .ok (reps, t) => .ok (some (check_swift_file c) :: reps, t)) by
            simp [processFiles, pathExists, readFile, hfs]] at h
        cases hr : processFiles fs rest (total + (check_swift_file c).length) with
        | raised e => rw [hr] at h; simp at h
        | ok pr' => exact ih _ pr' hr p hp'
      | undecodable =>
        simp [processFiles, pathExists, readFile, hfs] at h

/-! ### Concrete filesystems and texts used as witnesses -/

/-- Filesystem on which every path is absent. -/
def fsAllAbsent : String → FileState := fun _ => .absent

/-- Filesystem with a single existing file that is not valid UTF-8. -/
def fsOneUndecodable : String → FileState := fun p =>
  if p = "i18n editor/PermissionManager.swift" then .undecodable else .absent

/-- Filesystem with a single existing one-character file. -/
def fsOneText : String → FileState := fun p =>
  if p = "i18n editor/ContentView.swift" then .text "x".toList else .absent

/-- A two-line function signature followed by a lone closing brace. -/
def exFunc : List Char := "func f() \x7b\n\x7d".toList

/-- The async-dispatch marker on its own line, no brace on it or the next. -/
def exAsync : List Char := "DispatchQueue.main.async\nfoo()".toList

/-- Text with exactly one unmatched opening brace. -/
def exBrace : List Char := "\x7b".toList

/-- Text with equal (zero) counts of all three bracket kinds. -/
def exBalanced : List Char := "ab".toList

/-- Result of running the driver when every listed file is absent. -/
def rAbsent : RunResult := ⟨[none, none, none, none, none, none], 0, 0, 0⟩

/-! ### The claims -/

/-- C1: for every completed run of the driver over the fixed file list, the
exit status is 0 exactly when the accumulated total issue count is 0, and
that total is the sum of the per-file contributions `numIssues`, which is 0
for an absent file — so a file in the list being absent does not by itself
make the exit status nonzero. -/
theorem C1_exit_status (fs : String → FileState) (r : RunResult)
    (h : main_run fs = PyOutcome.ok r) :
    (r.exitCode = 0 ↔ r.totalIssues = 0) ∧
    r.totalIssues = (modified_files.map (numIssues fs)).sum := by
  cases hp : processFiles fs modified_files 0 with
  | raised e =>
    rw [main_run, hp] at h
    simp at h
  | ok pr =>
    obtain ⟨reps, total⟩ := pr
    rw [main_run, hp] at h
    simp only [PyOutcome.ok.injEq] at h
    subst h
    have hnu := processFiles_ok_no_undec fs modified_files 0 (reps, total) hp
    have heq := processFiles_eq fs modified_files 0 hnu
    rw [hp] at heq
    simp only [PyOutcome.ok.injEq, Prod.mk.injEq] at heq
    constructor
    · by_cases ht : total = 0 <;> simp [ht]
    · have h2 := heq.2
      simp only [Nat.zero_add] at h2
      simpa using h2

/-- C1 witness: the all-absent filesystem completes with exit code 0 and a
zero issue total. -/
theorem C1_witness :
    main_run fsAllAbsent = PyOutcome.ok rAbsent ∧
    ((rAbsent.exitCode = 0 ↔ rAbsent.totalIssues = 0) ∧
      rAbsent.totalIssues = (modified_files.map (numIssues fsAllAbsent)).sum) :=
  ⟨by decide, C1_exit_status fsAllAbsent rAbsent (by decide)⟩

/-- C2 counterexample: with one existing but UTF-8-undecodable file in the
list, the run aborts with an uncaught `UnicodeDecodeError` — the error is
not converted into a report line for that file, and the process does not
end via the final aggregated exit code. -/
theorem C2_counterexample :
    main_run fsOneUndecodable = PyOutcome.raised PyError.unicodeDecodeError := by
  decide

/-- C2 amended: a missing file is handled locally (the loop records its
not-found report and continues), and any run in which no listed file is
undecodable terminates normally through the final aggregated exit code; but
an existing file that cannot be decoded as UTF-8 raises an exception no
handler catches, aborting the process (see `C2_counterexample`). -/
theorem C2_local_error_handling (fs : String → FileState)
    (h : ∀ p ∈ modified_files, fs p ≠ FileState.undecodable) :
    ∃ r : RunResult, main_run fs = PyOutcome.ok r ∧
      r.exitCode = (if r.totalIssues = 0 then 0 else 1) := by
  have heq := processFiles_eq fs modified_files 0 h
  rw [main_run, heq]
  exact ⟨_, rfl, rfl⟩

/-- C2 witness: the amended statement applied to the all-absent filesystem. -/
theorem C2_witness :
    (∀ p ∈ modified_files, fsAllAbsent p ≠ FileState.undecodable) ∧
    ∃ r : RunResult, main_run fsAllAbsent = PyOutcome.ok r ∧
      r.exitCode = (if r.totalIssues = 0 then 0 else 1) :=
  ⟨by decide, C2_local_error_handling fsAllAbsent (by decide)⟩

/-- C3 counterexample: for the two-line text `"func f() {\n}"` the function
signature is line 1 and the closing brace is line 2; all hypotheses of the
claim hold, yet the report does not contain the message citing the
closing-brace line number 2 (the code cites the signature line, 1). -/
theorem C3_counterexample :
    (splitNl exFunc)[0]? = some "func f() \x7b".toList ∧
    (splitNl exFunc)[1]? = some "\x7d".toList ∧
    funcSigMatch "func f() \x7b".toList = true ∧
    stripPy "\x7d".toList = ['}'] ∧
    funcMsg 2 ∉ check_swift_file exFunc := by
  decide

/-- C3 amended: when line `k + 1` (1-based) matches the function-signature
pattern and the following line strips to a lone closing brace, the scanner
emits "Line N: Function appears to have empty body" with N the *signature*
line's 1-based number `k + 1` — one less than the closing-brace line number
the original claim states. -/
theorem C3_empty_body_heuristic (content : List Char) (k : Nat) (line nl : List Char)
    (h1 : (splitNl content)[k]? = some line)
    (h2 : (splitNl content)[k + 1]? = some nl)
    (h3 : funcSigMatch line = true)
    (h4 : stripPy nl = ['}']) :
    funcMsg (k + 1) ∈ check_swift_file content := by
  rw [check_swift_file_eq]
  apply List.mem_append.mpr
  left
  have h5 := emitted_func (splitNl content) k 1 line nl h1 h2 h3 h4
  rwa [show 1 + k = k + 1 by omega] at h5

/-- C3 witness: the amended statement at the two-line example. -/
theorem C3_witness :
    ((splitNl exFunc)[0]? = some "func f() \x7b".toList ∧
      (splitNl exFunc)[1]? = some "\x7d".toList ∧
      funcSigMatch "func f() \x7b".toList = true ∧
      stripPy "\x7d".toList = ['}']) ∧
    funcMsg 1 ∈ check_swift_file exFunc :=
  ⟨by decide, C3_empty_body_heuristic exFunc 0 ("func f() \x7b".toList) ("\x7d".toList)
    (by decide) (by decide) (by decide) (by decide)⟩

/-- C4: when line `k + 1` (1-based) contains the async-dispatch marker but
no opening brace, and the next line exists and also contains no opening
brace, the scanner emits the missing-opening-brace message citing the
current line's 1-based number `k + 1`. -/
theorem C4_dangling_async (content : List Char) (k : Nat) (line nl : List Char)
    (h1 : (splitNl content)[k]? = some line)
    (h2 : (splitNl content)[k + 1]? = some nl)
    (h3 : containsSub asyncMarker line = true)
    (h4 : '{' ∉ line) (h5 : '{' ∉ nl) :
    asyncMsg (k + 1) ∈ check_swift_file content := by
  have hl : containsSub ['{'] line = false := by
    by_contra hne
    exact h4 ((containsSub_single '{' line).mp (by simpa using hne))
  have hn : containsSub ['{'] nl = false := by
    by_contra hne
    exact h5 ((containsSub_single '{' nl).mp (by simpa using hne))
  rw [check_swift_file_eq]
  apply List.mem_append.mpr
  left
  have h6 := emitted_async (splitNl content) k 1 line nl h1 h2 h3 hl hn
  rwa [show 1 + k = k + 1 by omega] at h6

/-- C4 witness: the marker line followed by a brace-free line. -/
theorem C4_witness :
    ((splitNl exAsync)[0]? = some "DispatchQueue.main.async".toList ∧
      (splitNl exAsync)[1]? = some "foo()".toList ∧
      containsSub asyncMarker "DispatchQueue.main.async".toList = true ∧
      '{' ∉ "DispatchQueue.main.async".toList ∧ '{' ∉ "foo()".toList) ∧
    asyncMsg 1 ∈ check_swift_file exAsync :=
  ⟨by decide, C4_dangling_async exAsync 0 ("DispatchQueue.main.async".toList)
    ("foo()".toList) (by decide) (by decide) (by decide) (by decide) (by decide)⟩

/-- C5: each non-zero final balance counter produces exactly one message in
the report, naming the bracket kind and the counter's value and phrased as
an "extra opening" count whatever the sign of the counter (the message is
`braceMsg`/`parenMsg`/`bracketMsg` applied to the signed value). -/
theorem C5_balance_messages (content : List Char) :
    (((content.count '{' : Int) - (content.count '}' : Int)) ≠ 0 →
      (check_swift_file content).count
        (braceMsg ((content.count '{' : Int) - (content.count '}' : Int))) = 1) ∧
    (((content.count '(' : Int) - (content.count ')' : Int)) ≠ 0 →
      (check_swift_file content).count
        (parenMsg ((content.count '(' : Int) - (content.count ')' : Int))) = 1) ∧
    (((content.count '[' : Int) - (content.count ']' : Int)) ≠ 0 →
      (check_swift_file content).count
        (bracketMsg ((content.count '[' : Int) - (content.count ']' : Int))) = 1) := by
  refine ⟨fun hb => ?_, fun hq => ?_, fun hr => ?_⟩
  · rw [check_swift_file_eq, List.count_append, braceDelta_splitNl,
      parenDelta_splitNl, bracketDelta_splitNl,
      List.count_eq_zero.mpr (braceMsg_not_in_emitted _ 1 _),
      count_balanceMsgs_brace _ _ _ hb]
  · rw [check_swift_file_eq, List.count_append, braceDelta_splitNl,
      parenDelta_splitNl, bracketDelta_splitNl,
      List.count_eq_zero.mpr (parenMsg_not_in_emitted _ 1 _),
      count_balanceMsgs_paren _ _ _ hq]
  · rw [check_swift_file_eq, List.count_append, braceDelta_splitNl,
      parenDelta_splitNl, bracketDelta_splitNl,
      List.count_eq_zero.mpr (bracketMsg_not_in_emitted _ 1 _),
      count_balanceMsgs_bracket _ _ _ hr]

/-- C5 witness: a text with exactly one unmatched `{` reports the brace
message with count 1. -/
theorem C5_witness :
    ((exBrace.count '{' : Int) - (exBrace.count '}' : Int)) ≠ 0 ∧
    (check_swift_file exBrace).count
      (braceMsg ((exBrace.count '{' : Int) - (exBrace.count '}' : Int))) = 1 :=
  ⟨by decide, (C5_balance_messages exBrace).1 (by decide)⟩

/-- C6: when the text's total counts of `{`/`}`, `(`/`)` and `[`/`]` agree,
no balance message (for any reported value) appears in the output. -/
theorem C6_balanced_no_messages (content : List Char)
    (h1 : content.count '{' = content.count '}')
    (h2 : content.count '(' = content.count ')')
    (h3 : content.count '[' = content.count ']') :
    ∀ n : Int, braceMsg n ∉ check_swift_file content ∧
      parenMsg n ∉ check_swift_file content ∧
      bracketMsg n ∉ check_swift_file content := by
  intro n
  have hb : braceDelta (splitNl content) = 0 := by rw [braceDelta_splitNl]; omega
  have hq : parenDelta (splitNl content) = 0 := by rw [parenDelta_splitNl]; omega
  have hr : bracketDelta (splitNl content) = 0 := by rw [bracketDelta_splitNl]; omega
  rw [check_swift_file_eq, hb, hq, hr]
  have hnil : balanceMsgs 0 0 0 = [] := rfl
  rw [hnil, List.append_nil]
  exact ⟨braceMsg_not_in_emitted n 1 _, parenMsg_not_in_emitted n 1 _,
    bracketMsg_not_in_emitted n 1 _⟩

/-- C6 witness: a balanced text has no brace/paren/bracket message for the
value 1. -/
theorem C6_witness :
    (exBalanced.count '{' = exBalanced.count '}' ∧
      exBalanced.count '(' = exBalanced.count ')' ∧
      exBalanced.count '[' = exBalanced.count ']') ∧
    (braceMsg 1 ∉ check_swift_file exBalanced ∧
      parenMsg 1 ∉ check_swift_file exBalanced ∧
      bracketMsg 1 ∉ check_swift_file exBalanced) :=
  ⟨by decide, C6_balanced_no_messages exBalanced (by decide) (by decide) (by decide) 1⟩

/-- C7: when every path of the fixed list is absent, the run completes with
zero total issues, exit code 0, and a summary counting 0 files checked. -/
theorem C7_all_absent (fs : String → FileState)
    (h : ∀ p ∈ modified_files, fs p = FileState.absent) :
    ∃ r : RunResult, main_run fs = PyOutcome.ok r ∧
      r.totalIssues = 0 ∧ r.exitCode = 0 ∧ r.filesChecked = 0 := by
  have hnu : ∀ p ∈ modified_files, fs p ≠ FileState.undecodable := by
    intro p hp
    rw [h p hp]
    simp
  have heq := processFiles_eq fs modified_files 0 hnu
  have hsum : (modified_files.map (numIssues fs)).sum = 0 := by
    apply List.sum_eq_zero
    intro x hx
    obtain ⟨p, hp, rfl⟩ := List.mem_map.mp hx
    unfold numIssues
    rw [h p hp]
  have hfilt : (modified_files.filter (fun p => pathExists (fs p))).length = 0 := by
    rw [List.length_eq_zero]
    apply List.filter_eq_nil_iff.mpr
    intro p hp
    rw [h p hp]
    simp [pathExists]
  rw [main_run, heq]
  refine ⟨_, rfl, ?_, ?_, ?_⟩
  · simp [hsum]
  · simp [hsum]
  · exact hfilt

/-- C7 witness: the all-absent filesystem. -/
theorem C7_witness :
    (∀ p ∈ modified_files, fsAllAbsent p = FileState.absent) ∧
    ∃ r : RunResult, main_run fsAllAbsent = PyOutcome.ok r ∧
      r.totalIssues = 0 ∧ r.exitCode = 0 ∧ r.filesChecked = 0 :=
  ⟨by decide, C7_all_absent fsAllAbsent (by decide)⟩

/-- C8: the scanner is a pure deterministic function of each file's text:
on any decodable file list the driver's loop yields, for every file, the
report `fileReport fs p` — a function of that file's state alone, so the
result for one file is unaffected by which files were scanned before it —
and the total is the sum of per-file counts; counters and issue lists are
re-created inside `check_swift_file` on every call. -/
theorem C8_scanner_purity (fs : String → FileState) (files : List String) (total : Nat)
    (h : ∀ p ∈ files, fs p ≠ FileState.undecodable) :
    processFiles fs files total =
      PyOutcome.ok (files.map (fileReport fs), total + (files.map (numIssues fs)).sum) :=
  processFiles_eq fs files total h

/-- C8 witness: a filesystem with one existing clean file. -/
theorem C8_witness :
    (∀ p ∈ modified_files, fsOneText p ≠ FileState.undecodable) ∧
    processFiles fsOneText modified_files 0 =
      PyOutcome.ok (modified_files.map (fileReport fsOneText),
        0 + (modified_files.map (numIssues fsOneText)).sum) :=
  ⟨by decide, C8_scanner_purity fsOneText modified_files 0 (by decide)⟩

/-- C9: every issue the line loop accumulates begins with "Line N:" where
`N` is at least 1 and has a successor line, i.e. `N + 1 ≤` the number of
lines produced by splitting the text on newlines (so `N` is at most that
number minus one). -/
theorem C9_line_issue_bounds (content : List Char) (s : List Char)
    (h : s ∈ (scanLoop 1 (splitNl content) ⟨0, 0, 0, []⟩).issues) :
    ∃ j t, s = "Line ".toList ++ (toString j).toList ++ ':' :: t ∧
      1 ≤ j ∧ j + 1 ≤ (splitNl content).length := by
  rw [scanLoop_eq] at h
  simp only [List.nil_append] at h
  obtain ⟨j, h1, h2, hs | hs⟩ := emitted_mem s (splitNl content) 1 h
  · exact ⟨j, " DispatchQueue.main.async might be missing opening brace".toList,
      by rw [hs]; rfl, h1, by omega⟩
  · exact ⟨j, " Function appears to have empty body".toList,
      by rw [hs]; rfl, h1, by omega⟩

/-- C9 witness: the async example's issue carries a line number within
bounds. -/
theorem C9_witness :
    asyncMsg 1 ∈ (scanLoop 1 (splitNl exAsync) ⟨0, 0, 0, []⟩).issues ∧
    ∃ j t, asyncMsg 1 = "Line ".toList ++ (toString j).toList ++ ':' :: t ∧
      1 ≤ j ∧ j + 1 ≤ (splitNl exAsync).length :=
  ⟨by decide, C9_line_issue_bounds exAsync (asyncMsg 1) (by decide)⟩

/-- C10: the report is the loop's line-heuristic issues — in nondecreasing
order of cited line number, heuristic A before heuristic B on the same
line — followed by the balance messages in the fixed order brace,
parenthesis, bracket, each appearing at most once (`balanceMsgs` contains
one optional singleton per kind). -/
theorem C10_output_order (content : List Char) :
    ∃ (l : List (List Char)) (db dq dr : Int),
      check_swift_file content = l ++ balanceMsgs db dq dr ∧
      l = (scanLoop 1 (splitNl content) ⟨0, 0, 0, []⟩).issues ∧
      LineOrdered 1 l := by
  refine ⟨emitted 1 (splitNl content), braceDelta (splitNl content),
    parenDelta (splitNl content), bracketDelta (splitNl content),
    check_swift_file_eq content, ?_, emitted_ordered (splitNl content) 1⟩
  rw [scanLoop_eq]
  simp

end ValidateChanges
